import Mathlib

/-!
Shallow embedding of the `great_expectations` dataset core
(`great_expectations/dataset/util.py` and
`great_expectations/dataset/sqlalchemy_dataset.py`), together with
theorems settling the specification claims about the column-map
expectation protocol and the partition-object model.

Modelling conventions:
* Python numbers are embedded as `ℚ` (exact arithmetic); machine floats
  do not appear in any claim, whose statements are about exact values.
* A Python function that may raise is embedded as `Except GEErr _`.
* SQL rows of the single column under test are `List (Option ℚ)`;
  `Option.none` is SQL NULL.
* External-library calls (numpy, scipy, pandas) are embedded by their
  documented behaviour at the call sites the repository uses.
-/

namespace GE

/-- Error values raised by the embedded code.  `valueError` and
`typeError` mirror Python's built-in exception classes used in
`util.py`; `configurationError` is the spec's name for a rejected
`mostly` configuration. -/
inductive GEErr where
  | valueError (msg : String)
  | typeError (msg : String)
  | configurationError (msg : String)
deriving DecidableEq, Repr

/-! ### Embeddings of the numpy primitives used by `util.py` -/

/-- Model of `np.min` on a nonempty list (callers guard emptiness;
numpy raises on an empty input, which the callers below embed as an
explicit error branch before calling this). -/
def np_min : List ℚ → ℚ
  | [] => 0
  | x :: xs => xs.foldl min x

/-- Model of `np.max` on a nonempty list (same convention as `np_min`). -/
def np_max : List ℚ → ℚ
  | [] => 0
  | x :: xs => xs.foldl max x

/-- Model of `np.diff`: consecutive differences `l[i+1] - l[i]`. -/
def np_diff (l : List ℚ) : List ℚ :=
  List.zipWith (fun a b => b - a) l l.tail

/-- Model of `np.linspace start stop num`: `num` evenly spaced points,
endpoints included (numpy pins the final point to `stop` exactly; in
exact rational arithmetic the closed formula already does). -/
def linspace (start stop : ℚ) (num : ℕ) : List ℚ :=
  if num ≤ 1 then List.replicate num start
  else (List.range num).map fun i : ℕ => start + (stop - start) * (i : ℚ) / ((num : ℚ) - 1)

/-- Model of the counting core of `np.histogram data edges`: one count
per bin, every bin half-open `[e_i, e_(i+1))` except the last, which is
closed `[e_(m-1), e_m]` (numpy's documented convention). -/
def hist_rec (data : List ℚ) : List ℚ → List ℕ
  | a :: b :: c :: rest =>
      data.countP (fun v => decide (a ≤ v ∧ v < b)) :: hist_rec data (b :: c :: rest)
  | [a, b] => [data.countP (fun v => decide (a ≤ v ∧ v ≤ b))]
  | _ => []

/-- Linear interpolation into a sorted sample at fractional index
`pos`, as `np.percentile` performs it: interpolate between
`s[⌊pos⌋]` and `s[⌊pos⌋+1]`, clamping at the final element. -/
def np_percentile_interp (s : List ℚ) (pos : ℚ) : ℚ :=
  if (⌊pos⌋).toNat + 1 < s.length then
    s.getD (⌊pos⌋).toNat 0 +
      (pos - ((⌊pos⌋).toNat : ℚ)) * (s.getD ((⌊pos⌋).toNat + 1) 0 - s.getD (⌊pos⌋).toNat 0)
  else s.getD (s.length - 1) 0

/-- Model of `np.percentile data q` (linear-interpolation method, the
numpy default): sort the sample and interpolate at fractional index
`pos = q (n-1) / 100`. -/
def np_percentile_scalar (data : List ℚ) (q : ℚ) : ℚ :=
  np_percentile_interp (data.mergeSort (fun a b => decide (a ≤ b)))
    (q * ((data.length : ℚ) - 1) / 100)

/-! ### `parse_result_format` (util.py lines 18-31) -/

/-- A value stored in a `result_format` dictionary. -/
inductive RFVal where
  | str (s : String)
  | nat (n : ℕ)
deriving DecidableEq, Repr

/-- A Python dict in insertion order, as used for `result_format`. -/
abbrev RFDict := List (String × RFVal)

/-- A `result_format` argument: either a bare verbosity string or a
dictionary. -/
inductive ResultFormat where
  | str (s : String)
  | dict (d : RFDict)
deriving DecidableEq, Repr

/-- Embedding of `parse_result_format` (util.py).  A bare string is
expanded to a two-key dict; a dict lacking `partial_unexpected_count`
gets that key set to 20 (Python mutates the dict in place, embedded
here as explicit state passing: the returned dict is the updated
input), and is otherwise returned unchanged. -/
def parse_result_format : ResultFormat → RFDict
  | .str s => [("result_format", .str s), ("partial_unexpected_count", .nat 20)]
  | .dict d =>
      match d.lookup "partial_unexpected_count" with
      | Option.none => d ++ [("partial_unexpected_count", .nat 20)]
      | Option.some _ => d

/-! ### Partition validators (util.py lines 159-195) -/

/-- A candidate partition object: a dict that may or may not carry the
`bins`, `values` and `weights` keys (absent key = `Option.none`). -/
structure PartitionCandidate where
  bins : Option (List ℚ)
  vals : Option (List ℚ)
  weights : Option (List ℚ)
deriving DecidableEq, Repr

/-- Model of `np.allclose s 1` at numpy's default tolerances
(`rtol = 1e-5`, `atol = 1e-8`): `|s - 1| ≤ atol + rtol * |1|`. -/
def np_allclose_one (s : ℚ) : Bool :=
  decide (|s - 1| ≤ 1 / 100000000 + 1 / 100000)

/-- Embedding of `is_valid_continuous_partition_object` (util.py):
`False` for `None` or a missing key; otherwise requires one more bin
edge than weight, all consecutive bin differences strictly positive
(`np.all (np.diff bins > 0)`), and weights summing to 1 within
`np.allclose` tolerance. -/
def is_valid_continuous_partition_object : Option PartitionCandidate → Bool
  | Option.none => false
  | Option.some p =>
      match p.weights, p.bins with
      | Option.some w, Option.some b =>
          decide (b.length = w.length + 1) &&
          (np_diff b).all (fun d => decide (0 < d)) &&
          np_allclose_one w.sum
      | _, _ => false

/-! ### `categorical_partition_data` (util.py lines 198-225) -/

/-- A categorical partition object (`values` / `weights`). -/
structure CategoricalPartition where
  vals : List ℚ
  weights : List ℚ
deriving DecidableEq, Repr

/-- Embedding of `categorical_partition_data` (util.py).  Pandas
`value_counts(dropna=True)` is modelled as: distinct non-null values in
first-encounter order, stably sorted by descending count; weights are
counts over the non-null count.  The source contains no `raise`, so the
embedding always returns `.ok` (the `Except` wrapper records exactly
that nothing is thrown). -/
def categorical_partition_data (data : List (Option ℚ)) :
    Except GEErr CategoricalPartition :=
  let nonnull := data.filterMap id
  let distinct := nonnull.dedup
  let counted := distinct.map (fun v => (v, nonnull.count v))
  let sorted := counted.mergeSort (fun a b => decide (b.2 ≤ a.2))
  let nonnull_count := nonnull.length
  .ok { vals := sorted.map Prod.fst,
        weights := sorted.map (fun p => (p.2 : ℚ) / (nonnull_count : ℚ)) }

/-! ### `continuous_partition_data` (util.py lines 271-298) -/

/-- A continuous partition object (`bins` / `weights`). -/
structure ContinuousPartition where
  bins : List ℚ
  weights : List ℚ
deriving DecidableEq, Repr

/-- Sturges bin count, the component of numpy's `'auto'` bin-edge
heuristic that fixes the number of equal-width bins; the exact count is
irrelevant to every claim, which only depend on the edges being an
equal-width nondecreasing `linspace`. -/
def auto_n_bins (n : ℕ) : ℕ := Nat.clog 2 n + 1

/-- Model of `np.histogram_bin_edges data 'auto'`: equal-width edges
spanning the data range (numpy's documented behaviour; empty data gets
numpy's default range 0..1). -/
def auto_bin_edges (data : List ℚ) : List ℚ :=
  if data.isEmpty then linspace 0 1 2
  else linspace (np_min data) (np_max data) (auto_n_bins data.length + 1)

/-- Model of `np.histogram data edges` with explicit edges: numpy
rejects decreasing edges, otherwise returns the per-bin counts and the
edges themselves. -/
def np_histogram (data : List ℚ) (edges : List ℚ) :
    Except GEErr (List ℕ × List ℚ) :=
  if (np_diff edges).all (fun d => decide (0 ≤ d)) then .ok (hist_rec data edges, edges)
  else .error (.valueError "bins must increase monotonically")

/-- Embedding of `continuous_partition_data data bins n_bins`
(util.py).  `'uniform'` uses `np.linspace (np.min data) (np.max data)
(n_bins+1)` (numpy raises on empty data at `np.min`); `'ntile'` uses
`np.percentile data (np.linspace 0 100 (n_bins+1))` (numpy raises on
empty data); `'auto'` hands the string to `np.histogram`; any other
string raises `ValueError "Invalid parameter for bins argument"`.
Weights are per-bin counts over `len data`. -/
def continuous_partition_data (data : List ℚ) (bins : String) (n_bins : ℕ) :
    Except GEErr ContinuousPartition := do
  let edges ←
    if bins = "uniform" then
      if data.isEmpty then
        Except.error (.valueError "zero-size array to reduction operation minimum which has no identity")
      else
        Except.ok (linspace (np_min data) (np_max data) (n_bins + 1))
    else if bins = "ntile" then
      if data.isEmpty then
        Except.error (.valueError "zero-size array to reduction operation minimum which has no identity")
      else
        Except.ok ((linspace 0 100 (n_bins + 1)).map (np_percentile_scalar data))
    else if bins = "auto" then
      Except.ok (auto_bin_edges data)
    else
      Except.error (.valueError "Invalid parameter for bins argument")
  let (hist, bin_edges) ← np_histogram data edges
  Except.ok { bins := bin_edges,
              weights := hist.map (fun c : ℕ => (c : ℚ) / (data.length : ℚ)) }

/-! ### `kde_partition_data` (util.py lines 228-262) -/

/-- A bin edge that may be infinite: `kde_partition_data` with
`estimate_tails=False` uses `-np.inf` and `np.inf` as outer edges. -/
inductive XQ where
  | ninf
  | fin (q : ℚ)
  | inf
deriving DecidableEq, Repr

/-- A KDE partition object: bins may carry infinite outer edges. -/
structure KdePartition where
  bins : List XQ
  weights : List ℚ
deriving DecidableEq, Repr

/-- Embedding of `kde_partition_data data estimate_tails` (util.py).
The scipy kernel-density estimate is external: its cumulative
distribution `cdf x = kde.integrate_box_1d (-inf) x` and its bandwidth
factor `cf = kde.covariance_factor()` (strictly positive for scipy's
Gaussian KDE) enter as parameters.  Everything else follows the source
line by line: an evaluation grid `np.linspace (min - cf/2) (max + cf/2)
num` with `num = ⌊(max - min)/cf + 1⌋`, interior weights by differencing
the cdf values, outer weights `cdf_vals[0]` and `1 - cdf_vals[-1]`, and
outer edges at `± 1.5·cf` past the extremes (or `± ∞`). -/
def kde_partition_data (data : List ℚ) (estimate_tails : Bool)
    (cdf : ℚ → ℚ) (cf : ℚ) : KdePartition :=
  let mn := np_min data
  let mx := np_max data
  let num := (⌊(mx - mn) / cf + 1⌋).toNat
  let evaluation_bins := linspace (mn - cf / 2) (mx + cf / 2) num
  let cdf_vals := evaluation_bins.map cdf
  let evaluation_weights := np_diff cdf_vals
  let bins :=
    if estimate_tails then
      XQ.fin (mn - 3 / 2 * cf) :: evaluation_bins.map XQ.fin ++ [XQ.fin (mx + 3 / 2 * cf)]
    else
      XQ.ninf :: evaluation_bins.map XQ.fin ++ [XQ.inf]
  let weights := cdf_vals.headD 0 :: evaluation_weights ++ [1 - cdf_vals.getLastD 0]
  { bins := bins, weights := weights }

/-! ### Column-map expectation protocol (sqlalchemy_dataset.py)

The decorated `inner_wrapper` of `MetaSqlAlchemyDataSet.column_map_expectation`
is embedded over an abstract single-column table `rows : List (Option ℚ)`
(`Option.none` = SQL NULL).  Backend queries are logged explicitly so that
ordering claims ("before any backend query") are statable. -/

/-- One backend query issued during an evaluation, in issue order. -/
inductive Query where
  | nullCountQuery
  | rowCountQuery
  | predicateSelect
  | predicateCount
deriving DecidableEq, Repr

/-- The value a wrapped predicate function must return (source: the
dict with `unexpected_count` and `partial_unexpected_list`). -/
structure ColumnMapResult where
  unexpected_count : ℕ
  partial_unexpected_list : List ℚ
deriving DecidableEq, Repr

/-- Embedding of the source's `count_query`: `SELECT count(*)`. -/
def count_query_result (rows : List (Option ℚ)) : ℕ := rows.length

/-- Embedding of the source's `null_count_query`: the query is built
with `sa_column(column) != None`, which SQLAlchemy renders as
`column IS NOT NULL`, so the scalar it returns counts the rows whose
column value is present. -/
def null_count_query_result (rows : List (Option ℚ)) : ℕ :=
  (rows.filter (fun r => r.isSome)).length

/-- Embedding of the source's `nonnull_count = element_count - null_count`
(sqlalchemy_dataset.py line 37), with the two operands as the code
actually computes them. -/
def inner_wrapper_nonnull_count (rows : List (Option ℚ)) : ℤ :=
  (count_query_result rows : ℤ) - (null_count_query_result rows : ℤ)

/-- Modelled from the spec: `_calc_map_expectation_success` lives in the
`DataSet` base class (`great_expectations/dataset/base.py`), which is
not among the provided sources.  Per spec §4.3 step 5 and §7: a `mostly`
outside `[0,1]` is a `ConfigurationError`; with zero non-null rows the
division is guarded and the outcome treated as success; otherwise
success is `unexpected_count = 0` when `mostly` is unset and
`success_count / nonnull_count ≥ mostly` when set. -/
def calc_map_expectation_success (success_count nonnull_count : ℤ)
    (mostly : Option ℚ) : Except GEErr (Bool × Option ℚ) :=
  match mostly with
  | Option.some m =>
      if m < 0 ∨ 1 < m then
        .error (.configurationError "mostly must be a number between 0 and 1")
      else if nonnull_count = 0 then .ok (true, Option.none)
      else
        .ok (decide ((success_count : ℚ) / (nonnull_count : ℚ) ≥ m),
             Option.some ((success_count : ℚ) / (nonnull_count : ℚ)))
  | Option.none =>
      if nonnull_count = 0 then .ok (true, Option.none)
      else
        .ok (decide (nonnull_count - success_count = 0),
             Option.some ((success_count : ℚ) / (nonnull_count : ℚ)))

/-- The formatted expectation result record (spec §3). -/
structure ReturnObj where
  success : Bool
  element_count : ℤ
  missing_count : ℤ
  missing_percent : Option ℚ
  unexpected_count : ℤ
  unexpected_percent : Option ℚ
  partial_unexpected_list : List ℚ
deriving DecidableEq, Repr

/-- The `partial_unexpected_count` configured by a parsed
`result_format` dict (20 when the entry is not a number). -/
def rf_count (d : RFDict) : ℕ :=
  match d.lookup "partial_unexpected_count" with
  | Option.some (.nat n) => n
  | _ => 20

/-- Modelled from the spec: `_format_column_map_output` lives in the
missing `DataSet` base class.  Per spec §4.3 steps 1 and 6: the
`result_format` is expanded through `parse_result_format` (which is in
util.py), the counts are derived from `element_count`, `nonnull_count`
and `success_count`, percent fields guard a zero denominator, and the
partial unexpected list is re-truncated to the configured
`partial_unexpected_count`. -/
def format_column_map_output (result_format : ResultFormat) (success : Bool)
    (element_count nonnull_count success_count : ℤ)
    (partial_unexpected_list : List ℚ) : ReturnObj :=
  let rf := parse_result_format result_format
  let missing_count := element_count - nonnull_count
  let unexpected_count := nonnull_count - success_count
  { success := success
    element_count := element_count
    missing_count := missing_count
    missing_percent :=
      if element_count = 0 then Option.none
      else Option.some ((missing_count : ℚ) / (element_count : ℚ))
    unexpected_count := unexpected_count
    unexpected_percent :=
      if nonnull_count = 0 then Option.none
      else Option.some ((unexpected_count : ℚ) / (nonnull_count : ℚ))
    partial_unexpected_list := partial_unexpected_list.take (rf_count rf) }

/-- Embedding of `inner_wrapper` (sqlalchemy_dataset.py lines 26-53)
over a single-column table.  The wrapped predicate `func` is abstracted
by the backend queries it issues (`funcLog`) and the dict it returns
(`funcResult`).  The first component of the result is the ordered log
of backend queries executed before the call returned or raised; the
source executes the null-count query, then the row-count query, then
the predicate, and only then computes the success judgment. -/
def inner_wrapper (rows : List (Option ℚ)) (funcLog : List Query)
    (funcResult : ColumnMapResult) (mostly : Option ℚ)
    (result_format : Option ResultFormat) (default_result_format : ResultFormat) :
    List Query × Except GEErr ReturnObj :=
  let rf := result_format.getD default_result_format
  let null_count : ℤ := (null_count_query_result rows : ℤ)
  let element_count : ℤ := (count_query_result rows : ℤ)
  let nonnull_count : ℤ := element_count - null_count
  let log := [Query.nullCountQuery, Query.rowCountQuery] ++ funcLog
  let success_count : ℤ := nonnull_count - (funcResult.unexpected_count : ℤ)
  match calc_map_expectation_success success_count nonnull_count mostly with
  | .error e => (log, .error e)
  | .ok (success, _) =>
      (log, .ok (format_column_map_output rf success element_count nonnull_count
                  success_count funcResult.partial_unexpected_list))

/-- Embedding of the body of `expect_column_values_to_be_in_set`
(sqlalchemy_dataset.py lines 70-106): a limited `SELECT` of the
offending values (`LIMIT 20`, the hard-coded `unexpected_count_limit`)
followed by an unlimited `SELECT count(*)`; SQL `NOT IN` over non-null
parameters is unknown on NULL rows, so null rows never match. -/
def expect_column_values_to_be_in_set_inner (rows : List (Option ℚ))
    (values_set : List ℚ) : List Query × ColumnMapResult :=
  let unexpected := (rows.filterMap id).filter (fun v => decide (v ∉ values_set))
  ([Query.predicateSelect, Query.predicateCount],
   { unexpected_count := unexpected.length,
     partial_unexpected_list := unexpected.take 20 })

/-! ### `recursively_convert_to_json_serializable` (util.py lines 103-156) -/

/-- A Python value as seen by the serialization normalizer.  Each
constructor corresponds to one `isinstance` arm of the source; `other`
is any value of an unhandled type, carrying its `str(...)` rendering and
its type name, the two pieces of data the source's error message is
built from. -/
inductive PyObj where
  | pstr (s : String)
  | pint (n : ℤ)
  | pfloat (q : ℚ)
  | pbool (b : Bool)
  | pnone
  | pdict (kvs : List (String × PyObj))
  | plist (xs : List PyObj)
  | ptuple (xs : List PyObj)
  | pset (xs : List PyObj)
  | ndarray (xs : List PyObj)
  | npInt64 (n : ℤ)
  | npFloat64 (q : ℚ)
  | pdatetime (s : String)
  | other (rep tyName : String)
deriving Repr

/-- The source's error message for an unserializable value:
`'%s is of type %s which cannot be serialized.'`. -/
def serialization_error_msg (rep tyName : String) : String :=
  rep ++ " is of type " ++ tyName ++ " which cannot be serialized."

/-- Model of Python's `round x 15` followed by `float`, as applied to an
`np.float64` (`sys.float_info.dig = 15`). -/
def np_round15 (q : ℚ) : ℚ := (round (q * 10 ^ 15) : ℤ) / 10 ^ 15

mutual

/-- Embedding of `recursively_convert_to_json_serializable` (util.py),
one arm per `isinstance` branch in source order: primitives and `None`
pass through, dicts and sequences recurse, numpy arrays are listed and
recursed, numpy scalars are coerced, date/time values are rendered as
strings, and anything else raises
`TypeError (serialization_error_msg ...)`. -/
def recursively_convert_to_json_serializable : PyObj → Except GEErr PyObj
  | .pstr s => .ok (.pstr s)
  | .pint n => .ok (.pint n)
  | .pfloat q => .ok (.pfloat q)
  | .pbool b => .ok (.pbool b)
  | .pnone => .ok .pnone
  | .pdict kvs => do
      Except.ok (.pdict (← convert_dict_entries kvs))
  | .plist xs => do
      Except.ok (.plist (← convert_list xs))
  | .ptuple xs => do
      Except.ok (.plist (← convert_list xs))
  | .pset xs => do
      Except.ok (.plist (← convert_list xs))
  | .ndarray xs => do
      Except.ok (.plist (← convert_list xs))
  | .npInt64 n => .ok (.pint n)
  | .npFloat64 q => .ok (.pfloat (np_round15 q))
  | .pdatetime s => .ok (.pstr s)
  | .other rep tyName => .error (.typeError (serialization_error_msg rep tyName))

/-- Elementwise recursion over a list of values (the source's loop over
`list`, `tuple`, `set` and `ndarray.tolist()` members). -/
def convert_list : List PyObj → Except GEErr (List PyObj)
  | [] => .ok []
  | x :: xs => do
      Except.ok ((← recursively_convert_to_json_serializable x) :: (← convert_list xs))

/-- Valuewise recursion over dict entries (the source's loop over keys). -/
def convert_dict_entries :
    List (String × PyObj) → Except GEErr (List (String × PyObj))
  | [] => .ok []
  | (k, v) :: kvs => do
      Except.ok ((k, ← recursively_convert_to_json_serializable v) :: (← convert_dict_entries kvs))

end

mutual

/-- A value is supported when no `other` node occurs anywhere in it:
exactly the types the source's `isinstance` chain handles. -/
def supported : PyObj → Bool
  | .pdict kvs => supported_dict kvs
  | .plist xs => supported_list xs
  | .ptuple xs => supported_list xs
  | .pset xs => supported_list xs
  | .ndarray xs => supported_list xs
  | .other _ _ => false
  | _ => true

/-- All members of a list are supported. -/
def supported_list : List PyObj → Bool
  | [] => true
  | x :: xs => supported x && supported_list xs

/-- All values of a dict are supported. -/
def supported_dict : List (String × PyObj) → Bool
  | [] => true
  | (_, v) :: kvs => supported v && supported_dict kvs

end

mutual

/-- The `(str value, type name)` pairs of the unsupported nodes of a
value, in traversal order. -/
def others : PyObj → List (String × String)
  | .pdict kvs => others_dict kvs
  | .plist xs => others_list xs
  | .ptuple xs => others_list xs
  | .pset xs => others_list xs
  | .ndarray xs => others_list xs
  | .other rep tyName => [(rep, tyName)]
  | _ => []

/-- Unsupported nodes inside a list of values. -/
def others_list : List PyObj → List (String × String)
  | [] => []
  | x :: xs => others x ++ others_list xs

/-- Unsupported nodes inside dict values. -/
def others_dict : List (String × PyObj) → List (String × String)
  | [] => []
  | (_, v) :: kvs => others v ++ others_dict kvs

end

/-! ### Concrete example inputs used by the claim theorems -/

/-- A 10-row table whose column is null in exactly 2 rows. -/
def ex_rows_c1 : List (Option ℚ) :=
  List.replicate 8 (Option.some 1) ++ [Option.none, Option.none]

/-- The identity on `ℚ`, used as a concrete stand-in cdf. -/
def idq : ℚ → ℚ := fun x => x

/-! ## Helper lemmas -/

theorem foldl_min_le_init (x : ℚ) (l : List ℚ) : l.foldl min x ≤ x := by
  induction l generalizing x with
  | nil => simp
  | cons y ys ih => exact le_trans (ih (min x y)) (min_le_left x y)

theorem le_foldl_max_init (x : ℚ) (l : List ℚ) : x ≤ l.foldl max x := by
  induction l generalizing x with
  | nil => simp
  | cons y ys ih => exact le_trans (le_max_left x y) (ih (max x y))

theorem np_min_le_np_max {data : List ℚ} (h : data ≠ []) :
    np_min data ≤ np_max data := by
  cases data with
  | nil => exact absurd rfl h
  | cons x xs =>
      exact le_trans (foldl_min_le_init x xs) (le_foldl_max_init x xs)

theorem linspace_length (s e : ℚ) (num : ℕ) : (linspace s e num).length = num := by
  unfold linspace
  split
  · exact List.length_replicate num s
  · rw [List.length_map, List.length_range]

theorem getLastD_cons_of_ne_nil (x d : ℚ) {l : List ℚ} (h : l ≠ []) :
    (x :: l).getLastD d = l.getLastD d := by
  cases l with
  | nil => exact absurd rfl h
  | cons y t => rfl

theorem headD_add_sum_np_diff (l : List ℚ) (h : l ≠ []) :
    l.headD 0 + (np_diff l).sum = l.getLastD 0 := by
  induction l with
  | nil => exact absurd rfl h
  | cons x xs ih =>
      cases xs with
      | nil => simp [np_diff]
      | cons y t =>
          have ih' := ih (by simp)
          have hd : np_diff (x :: y :: t) = (y - x) :: np_diff (y :: t) := rfl
          have hlast : (x :: y :: t).getLastD 0 = (y :: t).getLastD 0 :=
            getLastD_cons_of_ne_nil x 0 (by simp)
          rw [hd, hlast]
          simp only [List.headD, List.sum_cons] at ih' ⊢
          linarith

theorem weights_formula_sum (l : List ℚ) (h : l ≠ []) :
    (l.headD 0 :: (np_diff l ++ [1 - l.getLastD 0])).sum = 1 := by
  have ht := headD_add_sum_np_diff l h
  simp only [List.sum_cons, List.sum_append, List.sum_cons, List.sum_nil]
  linarith

/-! ## C10 — `parse_result_format` on mapping input -/

/-- C10: for a mapping-typed `result_format`, `parse_result_format`
returns the mapping unchanged when `partial_unexpected_count` is
present; when absent it returns the caller's mapping updated with that
key set to 20 (in-place mutation embedded as state passing), the new
entry reads back as 20, and every other key reads back unchanged. -/
theorem parse_result_format_frame (d : RFDict) :
    (∀ v, d.lookup "partial_unexpected_count" = Option.some v →
        parse_result_format (.dict d) = d)
  ∧ (d.lookup "partial_unexpected_count" = Option.none →
      parse_result_format (.dict d) = d ++ [("partial_unexpected_count", RFVal.nat 20)]
      ∧ (parse_result_format (.dict d)).lookup "partial_unexpected_count"
          = Option.some (RFVal.nat 20)
      ∧ ∀ k, k ≠ "partial_unexpected_count" →
          (parse_result_format (.dict d)).lookup k = d.lookup k) := by
  constructor
  · intro v hv
    simp [parse_result_format, hv]
  · intro h
    refine ⟨by simp [parse_result_format, h], ?_, ?_⟩
    · simp [parse_result_format, h, List.lookup_append, List.lookup_cons]
    · intro k hk
      simp [parse_result_format, h, List.lookup_append, List.lookup_cons,
        beq_eq_false_iff_ne.mpr hk]

/-- Witness for C10 at a concrete mapping lacking the key. -/
theorem parse_result_format_frame_witness :
    parse_result_format (.dict [("result_format", RFVal.str "BASIC")])
      = [("result_format", RFVal.str "BASIC"), ("partial_unexpected_count", RFVal.nat 20)] :=
  ((parse_result_format_frame [("result_format", RFVal.str "BASIC")]).2 (by decide)).1

/-! ## C8 — `is_valid_continuous_partition_object` characterization -/

/-- C8: the continuous-partition validator returns `true` exactly when
both keys are present, there is one more bin edge than weight, every
consecutive bin difference is strictly positive, and the weights sum to
1 within `np.allclose` tolerance; it returns `false` on every other
input, `None` included. -/
theorem is_valid_continuous_iff (p : Option PartitionCandidate) :
    is_valid_continuous_partition_object p = true ↔
      ∃ q b w, p = Option.some q ∧ q.bins = Option.some b ∧ q.weights = Option.some w ∧
        b.length = w.length + 1 ∧ (∀ d ∈ np_diff b, 0 < d) ∧
        |w.sum - 1| ≤ 1 / 100000000 + 1 / 100000 := by
  cases p with
  | none => simp [is_valid_continuous_partition_object]
  | some q =>
      obtain ⟨b?, v?, w?⟩ := q
      cases w? <;> cases b? <;>
        simp [is_valid_continuous_partition_object, np_allclose_one,
          List.all_eq_true, and_assoc]

/-- Witness for C8: a valid two-bin partition is accepted. -/
theorem is_valid_continuous_iff_witness :
    is_valid_continuous_partition_object
      (Option.some { bins := Option.some [0, 1, 2], vals := Option.none,
                     weights := Option.some [1/2, 1/2] }) = true :=
  (is_valid_continuous_iff _).mpr
    ⟨_, [0, 1, 2], [1/2, 1/2], rfl, rfl, rfl, rfl, by norm_num [np_diff], by norm_num⟩

/-! ## C1 — the null-count query counts the wrong rows -/

/-- C1 (code bug): on a 10-row table with 2 null rows, the source's
`null_count_query` (built with `sa_column(column) != None`, i.e.
`IS NOT NULL`) returns 8, so the derived `nonnull_count` is 2 — not the
8 the claim (and the variable naming of the source itself) requires. -/
theorem nonnull_count_miscounts_nulls :
    count_query_result ex_rows_c1 = 10 ∧
    (ex_rows_c1.filter fun r => r.isNone).length = 2 ∧
    null_count_query_result ex_rows_c1 = 8 ∧
    inner_wrapper_nonnull_count ex_rows_c1 = 2 ∧
    inner_wrapper_nonnull_count ex_rows_c1 ≠ 8 := by
  decide

/-! ## C2 — out-of-range `mostly` and query ordering -/

/-- C2 (counterexample): with `mostly = 3/2` the call does fail with
`ConfigurationError`, but the backend query log is not empty — the
null-count, row-count and predicate queries all ran first, refuting
"no backend query is executed before the failure". -/
theorem mostly_out_of_range_cex :
    inner_wrapper [Option.some 1] [Query.predicateSelect, Query.predicateCount]
        { unexpected_count := 0, partial_unexpected_list := [] }
        (Option.some (3/2)) Option.none (.str "BASIC") =
      ([Query.nullCountQuery, Query.rowCountQuery, Query.predicateSelect, Query.predicateCount],
       .error (.configurationError "mostly must be a number between 0 and 1")) ∧
    ([Query.nullCountQuery, Query.rowCountQuery, Query.predicateSelect,
      Query.predicateCount] : List Query) ≠ ([] : List Query) := by
  constructor
  · have h32 : ((3 : ℚ)/2 < 0 ∨ (1 : ℚ) < 3/2) := Or.inr (by norm_num)
    simp [inner_wrapper, calc_map_expectation_success, if_pos h32]
  · decide

/-- C2 (amended): a `mostly` outside `[0,1]` makes every column-map
expectation call fail with `ConfigurationError`, but only after the
null-count and row-count queries and the wrapped predicate's own
queries have executed. -/
theorem mostly_out_of_range_errors_after_queries
    (rows : List (Option ℚ)) (funcLog : List Query) (funcResult : ColumnMapResult)
    (m : ℚ) (rf : Option ResultFormat) (drf : ResultFormat)
    (h : m < 0 ∨ 1 < m) :
    inner_wrapper rows funcLog funcResult (Option.some m) rf drf =
      ([Query.nullCountQuery, Query.rowCountQuery] ++ funcLog,
       .error (.configurationError "mostly must be a number between 0 and 1")) := by
  simp [inner_wrapper, calc_map_expectation_success, if_pos h]

/-- Witness for the amended C2 at `mostly = 3/2`. -/
theorem mostly_out_of_range_errors_after_queries_witness :
    inner_wrapper [Option.some 1] [] { unexpected_count := 0, partial_unexpected_list := [] }
        (Option.some (3/2)) Option.none (.str "BASIC") =
      ([Query.nullCountQuery, Query.rowCountQuery] ++ [],
       .error (.configurationError "mostly must be a number between 0 and 1")) :=
  mostly_out_of_range_errors_after_queries _ _ _ _ _ _ (Or.inr (by norm_num))

/-! ## C4 — empty categorical sample -/

/-- C4 (counterexample): a sample that is empty after removing nulls
does not raise; `categorical_partition_data` returns an (empty)
partition object. -/
theorem categorical_empty_cex :
    categorical_partition_data [Option.none] = .ok { vals := [], weights := [] } := by
  simp [categorical_partition_data]

/-- C4 (amended): whenever the sample is empty after removing nulls,
`categorical_partition_data` raises nothing and returns the empty
partition `{values: [], weights: []}`. -/
theorem categorical_empty_returns_empty (data : List (Option ℚ))
    (h : data.filterMap id = []) :
    categorical_partition_data data = .ok { vals := [], weights := [] } := by
  simp [categorical_partition_data, h]

/-- Witness for the amended C4 at an all-null two-element sample. -/
theorem categorical_empty_returns_empty_witness :
    categorical_partition_data [Option.none, Option.none]
      = .ok { vals := [], weights := [] } :=
  categorical_empty_returns_empty _ (by decide)

/-! ## C6 — `partial_unexpected_list` is bounded by the configured cap -/

/-- C6: every successfully formatted column-map result carries a
`partial_unexpected_list` no longer than the `partial_unexpected_count`
configured by the resolved `result_format` (20 by default), whatever
the predicate reported. -/
theorem partial_unexpected_list_bounded
    (rows : List (Option ℚ)) (funcLog : List Query) (funcResult : ColumnMapResult)
    (mostly : Option ℚ) (rf : Option ResultFormat) (drf : ResultFormat)
    (obj : ReturnObj)
    (h : (inner_wrapper rows funcLog funcResult mostly rf drf).2 = .ok obj) :
    obj.partial_unexpected_list.length ≤ rf_count (parse_result_format (rf.getD drf)) := by
  simp only [inner_wrapper] at h
  cases hc : calc_map_expectation_success
      ((count_query_result rows : ℤ) - (null_count_query_result rows : ℤ) -
        (funcResult.unexpected_count : ℤ))
      ((count_query_result rows : ℤ) - (null_count_query_result rows : ℤ)) mostly with
  | error e =>
      rw [hc] at h
      simp at h
  | ok sp =>
      obtain ⟨s, p⟩ := sp
      rw [hc] at h
      have h2 : Except.ok (format_column_map_output (rf.getD drf) s
          (count_query_result rows : ℤ)
          ((count_query_result rows : ℤ) - (null_count_query_result rows : ℤ))
          ((count_query_result rows : ℤ) - (null_count_query_result rows : ℤ) -
            (funcResult.unexpected_count : ℤ))
          funcResult.partial_unexpected_list) = Except.ok obj := h
      rw [Except.ok.injEq] at h2
      rw [← h2]
      simp only [format_column_map_output]
      exact List.length_take_le _ funcResult.partial_unexpected_list

/-- Witness for C6: a concrete evaluation whose one offending value
stays within the default cap of 20. -/
theorem partial_unexpected_list_bounded_witness :
    ((inner_wrapper [Option.some 1, Option.none] []
        { unexpected_count := 1, partial_unexpected_list := [2] }
        Option.none Option.none (.str "BASIC")).2 =
      .ok { success := false, element_count := 2, missing_count := 1,
            missing_percent := Option.some (1/2), unexpected_count := 1,
            unexpected_percent := Option.some 1,
            partial_unexpected_list := [2] }) ∧
    ([(2 : ℚ)].length ≤ rf_count (parse_result_format
        ((Option.none : Option ResultFormat).getD (.str "BASIC")))) := by
  have hEq : ((inner_wrapper [Option.some 1, Option.none] []
        { unexpected_count := 1, partial_unexpected_list := [2] }
        Option.none Option.none (.str "BASIC")).2 =
      .ok { success := false, element_count := 2, missing_count := 1,
            missing_percent := Option.some (1/2), unexpected_count := 1,
            unexpected_percent := Option.some 1,
            partial_unexpected_list := [2] }) := by
    norm_num [inner_wrapper, calc_map_expectation_success, format_column_map_output,
      count_query_result, null_count_query_result, parse_result_format, rf_count,
      List.lookup]
    all_goals decide
  exact ⟨hEq, partial_unexpected_list_bounded _ _ _ _ _ _ _ hEq⟩

/-! ## C7 — KDE partition weights sum to one -/

/-- C7: for every nonempty sample, every kernel cdf and every positive
bandwidth factor, and for both values of `estimate_tails`, the weights
built by `kde_partition_data` sum to exactly 1: the interior weights
are cdf differences and the two outer weights carry exactly the
residual tail mass `cdf_vals[0]` and `1 - cdf_vals[-1]`. -/
theorem kde_weights_sum_one (data : List ℚ) (estimate_tails : Bool)
    (cdf : ℚ → ℚ) (cf : ℚ) (hd : data ≠ []) (hcf : 0 < cf) :
    (kde_partition_data data estimate_tails cdf cf).weights.sum = 1 := by
  have hmx : np_min data ≤ np_max data := np_min_le_np_max hd
  have hnum : 1 ≤ (⌊(np_max data - np_min data) / cf + 1⌋).toNat := by
    have h0 : (0 : ℚ) ≤ (np_max data - np_min data) / cf :=
      div_nonneg (by linarith) hcf.le
    have h1 : (1 : ℤ) ≤ ⌊(np_max data - np_min data) / cf + 1⌋ :=
      Int.le_floor.mpr (by push_cast; linarith)
    omega
  have hb : linspace (np_min data - cf / 2) (np_max data + cf / 2)
      ((⌊(np_max data - np_min data) / cf + 1⌋).toNat) ≠ [] := by
    intro hnil
    have hl := linspace_length (np_min data - cf / 2) (np_max data + cf / 2)
      ((⌊(np_max data - np_min data) / cf + 1⌋).toNat)
    rw [hnil] at hl
    simp only [List.length_nil] at hl
    omega
  have hcv : (linspace (np_min data - cf / 2) (np_max data + cf / 2)
      ((⌊(np_max data - np_min data) / cf + 1⌋).toNat)).map cdf ≠ [] := by
    simpa using hb
  simp only [kde_partition_data]
  exact weights_formula_sum _ hcv

/-- Witness for C7 at the sample `[0,1]`, unit bandwidth factor and the
identity as cdf. -/
theorem kde_weights_sum_one_witness :
    (kde_partition_data [0, 1] true idq 1).weights.sum = 1 :=
  kde_weights_sum_one _ _ _ _ (List.cons_ne_nil _ _) (by norm_num)

/-! ## Helper lemmas for the histogram builders -/

theorem foldl_min_le_mem : ∀ {l : List ℚ} (x : ℚ) {v : ℚ}, v ∈ l → l.foldl min x ≤ v
  | y :: ys, x, v, hv => by
      rw [List.foldl_cons]
      rcases List.mem_cons.mp hv with rfl | hv'
      · exact le_trans (foldl_min_le_init (min x v) ys) (min_le_right x v)
      · exact foldl_min_le_mem (min x y) hv'

theorem le_foldl_max_mem : ∀ {l : List ℚ} (x : ℚ) {v : ℚ}, v ∈ l → v ≤ l.foldl max x
  | y :: ys, x, v, hv => by
      rw [List.foldl_cons]
      rcases List.mem_cons.mp hv with rfl | hv'
      · exact le_trans (le_max_right x v) (le_foldl_max_init (max x v) ys)
      · exact le_foldl_max_mem (max x y) hv'

theorem np_min_le_of_mem {data : List ℚ} {v : ℚ} (h : v ∈ data) :
    np_min data ≤ v := by
  cases data with
  | nil => cases h
  | cons x xs =>
      rcases List.mem_cons.mp h with rfl | hv
      · exact foldl_min_le_init v xs
      · exact foldl_min_le_mem x hv

theorem le_np_max_of_mem {data : List ℚ} {v : ℚ} (h : v ∈ data) :
    v ≤ np_max data := by
  cases data with
  | nil => cases h
  | cons x xs =>
      rcases List.mem_cons.mp h with rfl | hv
      · exact le_foldl_max_init v xs
      · exact le_foldl_max_mem x hv

theorem linspace_getD (s e : ℚ) (num : ℕ) (h2 : 2 ≤ num) {i : ℕ} (hi : i < num) :
    (linspace s e num).getD i 0 = s + (e - s) * (i : ℚ) / ((num : ℚ) - 1) := by
  unfold linspace
  rw [if_neg (by omega)]
  rw [List.getD_eq_getElem?_getD, List.getElem?_map, List.getElem?_range hi]
  rfl

theorem getLastD_eq_getD (l : List ℚ) : l.getLastD 0 = l.getD (l.length - 1) 0 := by
  rw [List.getLastD_eq_getLast?, List.getLast?_eq_getElem?, List.getD_eq_getElem?_getD]

theorem linspace_getD_last (s e : ℚ) (num : ℕ) (h2 : 2 ≤ num) :
    (linspace s e num).getD (num - 1) 0 = e := by
  rw [linspace_getD s e num h2 (by omega)]
  have hq2 : (2 : ℚ) ≤ (num : ℚ) := by exact_mod_cast h2
  have hne : (num : ℚ) - 1 ≠ 0 := by linarith
  have hcast : ((num - 1 : ℕ) : ℚ) = (num : ℚ) - 1 := by
    have h1 : 1 ≤ num := by omega
    push_cast [h1]
    ring
  rw [hcast, mul_div_assoc, div_self hne, mul_one]
  ring

theorem linspace_width (s e : ℚ) (num : ℕ) (h2 : 2 ≤ num) {i : ℕ} (hi : i + 1 < num) :
    (linspace s e num).getD (i + 1) 0 - (linspace s e num).getD i 0
      = (e - s) / ((num : ℚ) - 1) := by
  rw [linspace_getD s e num h2 hi, linspace_getD s e num h2 (by omega)]
  have hq2 : (2 : ℚ) ≤ (num : ℚ) := by exact_mod_cast h2
  have hne : (num : ℚ) - 1 ≠ 0 := by linarith
  push_cast
  field_simp
  ring

theorem chain'_of_getD (l : List ℚ) (R : ℚ → ℚ → Prop)
    (h : ∀ i, i + 1 < l.length → R (l.getD i 0) (l.getD (i + 1) 0)) :
    List.Chain' R l := by
  rw [List.chain'_iff_get]
  intro i hi
  have h1 : i < l.length := by omega
  have h2 : i + 1 < l.length := by omega
  simp only [List.get_eq_getElem]
  rw [← List.getD_eq_getElem l 0 h1, ← List.getD_eq_getElem l 0 h2]
  exact h i h2

theorem linspace_chain_lt (s e : ℚ) (num : ℕ) (h2 : 2 ≤ num) (hse : s < e) :
    List.Chain' (· < ·) (linspace s e num) := by
  apply chain'_of_getD
  intro i hi
  rw [linspace_length] at hi
  have hw := linspace_width s e num h2 hi
  have hq2 : (2 : ℚ) ≤ (num : ℚ) := by exact_mod_cast h2
  have hpos : (0 : ℚ) < (e - s) / ((num : ℚ) - 1) :=
    div_pos (by linarith) (by linarith)
  linarith

theorem linspace_chain_le (s e : ℚ) (num : ℕ) (hse : s ≤ e) :
    List.Chain' (· ≤ ·) (linspace s e num) := by
  rcases le_or_lt num 1 with h1 | h1
  · have h0 : num = 0 ∨ num = 1 := by omega
    rcases h0 with rfl | rfl <;> simp [linspace]
  · apply chain'_of_getD
    intro i hi
    rw [linspace_length] at hi
    have hw := linspace_width s e num (by omega) hi
    have hq2 : (2 : ℚ) ≤ (num : ℚ) := by exact_mod_cast (by omega : 2 ≤ num)
    have hnn : (0 : ℚ) ≤ (e - s) / ((num : ℚ) - 1) :=
      div_nonneg (by linarith) (by linarith)
    linarith

theorem np_diff_all_nonneg (l : List ℚ) (h : List.Chain' (· ≤ ·) l) :
    (np_diff l).all (fun d => decide (0 ≤ d)) = true := by
  induction l with
  | nil => rfl
  | cons x t ih =>
      cases t with
      | nil => rfl
      | cons y t' =>
          rw [List.chain'_cons] at h
          have hstep : np_diff (x :: y :: t') = (y - x) :: np_diff (y :: t') := rfl
          rw [hstep, List.all_cons, ih h.2]
          simp [sub_nonneg, h.1]

theorem countP_split (l : List ℚ) (p q r : ℚ → Bool)
    (hor : ∀ v, r v = (p v || q v)) (hand : ∀ v, (p v && q v) = false) :
    l.countP p + l.countP q = l.countP r := by
  induction l with
  | nil => simp
  | cons x xs ih =>
      have hax := hand x
      rw [List.countP_cons, List.countP_cons, List.countP_cons, hor x]
      cases hp : p x <;> cases hq : q x <;> simp [hp, hq] at hax ⊢ <;> omega

theorem chain'_le_head_getLastD {x : ℚ} {l : List ℚ}
    (h : List.Chain' (· ≤ ·) (x :: l)) : x ≤ (x :: l).getLastD 0 := by
  induction l generalizing x with
  | nil => simp [List.getLastD]
  | cons y t ih =>
      rw [List.chain'_cons] at h
      rw [getLastD_cons_of_ne_nil x 0 (by simp)]
      exact le_trans h.1 (ih h.2)

theorem hist_rec_sum (data : List ℚ) (l : List ℚ) (a : ℚ) (hne : l ≠ [])
    (hch : List.Chain' (· ≤ ·) (a :: l)) :
    (hist_rec data (a :: l)).sum =
      data.countP (fun v => decide (a ≤ v ∧ v ≤ (a :: l).getLastD 0)) := by
  induction l generalizing a with
  | nil => exact absurd rfl hne
  | cons b t ih =>
      rw [List.chain'_cons] at hch
      obtain ⟨hab, hch'⟩ := hch
      cases t with
      | nil =>
          have hl : ((a : ℚ) :: [b]).getLastD 0 = b := by
            rw [getLastD_cons_of_ne_nil a 0 (by simp)]
            rfl
          rw [hl]
          simp [hist_rec]
      | cons c t' =>
          have hbl : b ≤ (b :: c :: t').getLastD 0 := chain'_le_head_getLastD hch'
          have hrec : hist_rec data (a :: b :: c :: t') =
              data.countP (fun v => decide (a ≤ v ∧ v < b)) ::
                hist_rec data (b :: c :: t') := rfl
          rw [hrec, List.sum_cons, ih b (by simp) hch',
            getLastD_cons_of_ne_nil a 0 (by simp)]
          set L := (b :: c :: t').getLastD 0 with hL
          apply countP_split data _ _ _ ?_ ?_
          · intro v
            rcases lt_or_ge v b with hv | hv
            · have h1 : ¬ b ≤ v := not_le.mpr hv
              have h2 : v ≤ (b :: c :: t').getLastD 0 := le_trans hv.le hbl
              simp [hv, h1, h2]
            · have h1 : ¬ v < b := not_lt.mpr hv
              have h2 : a ≤ v := le_trans hab hv
              simp [hv, h1, h2]
          · intro v
            rcases lt_or_ge v b with hv | hv
            · have h1 : ¬ b ≤ v := not_le.mpr hv
              simp [h1]
            · have h1 : ¬ v < b := not_lt.mpr hv
              simp [h1]

theorem sum_map_natCast_div (l : List ℕ) (d : ℚ) :
    (l.map (fun c : ℕ => (c : ℚ) / d)).sum = ((l.sum : ℕ) : ℚ) / d := by
  induction l with
  | nil => simp
  | cons x xs ih =>
      rw [List.map_cons, List.sum_cons, List.sum_cons, ih]
      push_cast
      rw [add_div]

theorem except_bind_ok {α β : Type} (a : α) (f : α → Except GEErr β) :
    ((Except.ok a : Except GEErr α) >>= f) = f a := rfl

/-! ## C3 — uniform continuous partitions -/

/-- C3 (counterexample): on the constant sample `[5]` with
`bin_count = 1`, the uniform builder returns bins `[5, 5]`, which are
not strictly increasing, refuting the unconditional claim. -/
theorem uniform_constant_sample_cex :
    continuous_partition_data [(5 : ℚ)] "uniform" 1 =
      .ok { bins := [5, 5], weights := [1] } ∧
    ¬ List.Chain' (· < ·) [(5 : ℚ), 5] := by
  constructor
  · norm_num [continuous_partition_data, np_histogram, except_bind_ok, linspace,
      hist_rec, np_diff, List.range_succ, List.countP_cons, np_min, np_max]
  · simp [List.chain'_cons]

/-- C3 (amended): for every nonempty sample whose minimum is strictly
below its maximum and every `bin_count = n ≥ 1`, the uniform builder
returns `n+1` equal-width bin edges spanning `[min, max]`, strictly
increasing, with weights summing to exactly 1. -/
theorem uniform_partition_spec (data : List ℚ) (n : ℕ) (hd : data ≠ [])
    (hn : 1 ≤ n) (hlt : np_min data < np_max data) :
    ∃ p, continuous_partition_data data "uniform" n = .ok p ∧
      p.bins = linspace (np_min data) (np_max data) (n + 1) ∧
      p.bins.length = n + 1 ∧
      p.bins.getD 0 0 = np_min data ∧
      p.bins.getD n 0 = np_max data ∧
      (∀ i, i + 1 < n + 1 →
        p.bins.getD (i + 1) 0 - p.bins.getD i 0
          = (np_max data - np_min data) / (n : ℚ)) ∧
      List.Chain' (· < ·) p.bins ∧
      p.weights.sum = 1 := by
  have h2 : 2 ≤ n + 1 := by omega
  have hlen : (linspace (np_min data) (np_max data) (n + 1)).length = n + 1 :=
    linspace_length _ _ _
  have hchlt : List.Chain' (· < ·) (linspace (np_min data) (np_max data) (n + 1)) :=
    linspace_chain_lt _ _ _ h2 hlt
  have hchle : List.Chain' (· ≤ ·) (linspace (np_min data) (np_max data) (n + 1)) :=
    hchlt.imp (fun a b h => le_of_lt h)
  have hall : ∀ x ∈ np_diff (linspace (np_min data) (np_max data) (n + 1)), (0 : ℚ) ≤ x := by
    simpa using np_diff_all_nonneg _ hchle
  have hget0 : (linspace (np_min data) (np_max data) (n + 1)).getD 0 0 = np_min data := by
    rw [linspace_getD _ _ _ h2 (by omega)]
    push_cast
    ring
  have hgetn : (linspace (np_min data) (np_max data) (n + 1)).getD n 0 = np_max data :=
    linspace_getD_last _ _ _ h2
  have hres : continuous_partition_data data "uniform" n =
      .ok { bins := linspace (np_min data) (np_max data) (n + 1),
            weights := (hist_rec data (linspace (np_min data) (np_max data) (n + 1))).map
              (fun c : ℕ => (c : ℚ) / (data.length : ℚ)) } := by
    simp [continuous_partition_data, np_histogram, List.isEmpty_iff, hd,
      except_bind_ok]
    rw [if_pos hall]
    rfl
  refine ⟨_, hres, rfl, hlen, hget0, hgetn, ?_, hchlt, ?_⟩
  · intro i hi
    rw [linspace_width _ _ _ h2 hi]
    have hc : ((n + 1 : ℕ) : ℚ) - 1 = (n : ℚ) := by push_cast; ring
    rw [hc]
  · have hEne : linspace (np_min data) (np_max data) (n + 1) ≠ [] := by
      intro hnil
      rw [hnil] at hlen
      simp at hlen
    obtain ⟨a, l, hal⟩ := List.exists_cons_of_ne_nil hEne
    have hl_ne : l ≠ [] := by
      intro hnil
      rw [hnil] at hal
      rw [hal] at hlen
      simp at hlen
      omega
    have ha : a = np_min data := by
      rw [hal] at hget0
      exact hget0
    subst ha
    have hlast : (np_min data :: l).getLastD 0 = np_max data := by
      rw [← hal, getLastD_eq_getD, hlen]
      exact hgetn
    have hchcons : List.Chain' (· ≤ ·) (np_min data :: l) := by rw [← hal]; exact hchle
    have hsum := hist_rec_sum data l (np_min data) hl_ne hchcons
    rw [hlast] at hsum
    show ((hist_rec data (linspace (np_min data) (np_max data) (n + 1))).map
        (fun c : ℕ => (c : ℚ) / (data.length : ℚ))).sum = 1
    rw [sum_map_natCast_div, hal, hsum]
    have hcount : data.countP
        (fun v => decide (np_min data ≤ v ∧ v ≤ np_max data)) = data.length := by
      rw [List.countP_eq_length]
      intro v hv
      rw [decide_eq_true_eq]
      exact ⟨np_min_le_of_mem hv, le_np_max_of_mem hv⟩
    rw [hcount]
    have hlen0 : data.length ≠ 0 := by
      intro h0
      exact hd (List.length_eq_zero.mp h0)
    exact div_self (by exact_mod_cast hlen0)

/-- Witness for the amended C3 at the sample `[0, 2, 1]` with 2 bins. -/
theorem uniform_partition_spec_witness :
    ∃ p, continuous_partition_data [(0 : ℚ), 2, 1] "uniform" 2 = .ok p ∧
      p.bins = linspace (np_min [(0 : ℚ), 2, 1]) (np_max [(0 : ℚ), 2, 1]) (2 + 1) ∧
      p.bins.length = 2 + 1 ∧
      p.bins.getD 0 0 = np_min [(0 : ℚ), 2, 1] ∧
      p.bins.getD 2 0 = np_max [(0 : ℚ), 2, 1] ∧
      (∀ i, i + 1 < 2 + 1 →
        p.bins.getD (i + 1) 0 - p.bins.getD i 0
          = (np_max [(0 : ℚ), 2, 1] - np_min [(0 : ℚ), 2, 1]) / (2 : ℚ)) ∧
      List.Chain' (· < ·) p.bins ∧
      p.weights.sum = 1 :=
  uniform_partition_spec [(0 : ℚ), 2, 1] 2 (by simp) (by omega)
    (by norm_num [np_min, np_max])

/-! ## C5 — the accepted histogram modes -/

theorem except_bind_error {α β : Type} (e : GEErr) (f : α → Except GEErr β) :
    ((Except.error e : Except GEErr α) >>= f) = Except.error e := rfl

theorem sorted_getD_le (l : List ℚ) (hp : List.Pairwise (· ≤ ·) l) {i j : ℕ}
    (hij : i ≤ j) (hj : j < l.length) : l.getD i 0 ≤ l.getD j 0 := by
  rcases eq_or_lt_of_le hij with rfl | hlt
  · exact le_refl _
  · have hi : i < l.length := lt_trans hlt hj
    have hr := List.pairwise_iff_get.mp hp ⟨i, hi⟩ ⟨j, hj⟩ hlt
    rw [List.getD_eq_getElem l 0 hi, List.getD_eq_getElem l 0 hj]
    simpa using hr

theorem toNat_cast_eq_floor_cast (pos : ℚ) (h : 0 ≤ ⌊pos⌋) :
    (((⌊pos⌋).toNat : ℕ) : ℚ) = ((⌊pos⌋ : ℤ) : ℚ) := by
  exact_mod_cast Int.toNat_of_nonneg h

theorem frac_le_one (pos : ℚ) : pos - (((⌊pos⌋).toNat : ℕ) : ℚ) ≤ 1 := by
  rcases le_or_lt 0 ⌊pos⌋ with h | h
  · rw [toNat_cast_eq_floor_cast pos h]
    have := Int.lt_floor_add_one pos
    linarith
  · have h0 : (⌊pos⌋).toNat = 0 := by omega
    rw [h0]
    have h1 : (⌊pos⌋ : ℚ) ≤ -1 := by exact_mod_cast (by omega : ⌊pos⌋ ≤ -1)
    have := Int.lt_floor_add_one pos
    push_cast
    linarith

theorem frac_nonneg_of_floor_nonneg (pos : ℚ) (h : 0 ≤ ⌊pos⌋) :
    0 ≤ pos - (((⌊pos⌋).toNat : ℕ) : ℚ) := by
  rw [toNat_cast_eq_floor_cast pos h]
  have := Int.floor_le pos
  linarith

theorem np_percentile_interp_mono (s : List ℚ) (hp : List.Pairwise (· ≤ ·) s)
    {pos1 pos2 : ℚ} (h12 : pos1 ≤ pos2) :
    np_percentile_interp s pos1 ≤ np_percentile_interp s pos2 := by
  unfold np_percentile_interp
  have hle : (⌊pos1⌋).toNat ≤ (⌊pos2⌋).toNat :=
    Int.toNat_le_toNat (Int.floor_le_floor h12)
  have hf1le : pos1 - (((⌊pos1⌋).toNat : ℕ) : ℚ) ≤ 1 := frac_le_one pos1
  by_cases hb1 : (⌊pos1⌋).toNat + 1 < s.length
  · have hd1 : s.getD (⌊pos1⌋).toNat 0 ≤ s.getD ((⌊pos1⌋).toNat + 1) 0 :=
      sorted_getD_le s hp (by omega) hb1
    have hstep1 : s.getD (⌊pos1⌋).toNat 0 +
        (pos1 - (((⌊pos1⌋).toNat : ℕ) : ℚ)) *
          (s.getD ((⌊pos1⌋).toNat + 1) 0 - s.getD (⌊pos1⌋).toNat 0) ≤
        s.getD ((⌊pos1⌋).toNat + 1) 0 := by
      have hdd : (0 : ℚ) ≤ s.getD ((⌊pos1⌋).toNat + 1) 0 - s.getD (⌊pos1⌋).toNat 0 := by
        linarith
      have := mul_le_mul_of_nonneg_right hf1le hdd
      linarith
    by_cases hb2 : (⌊pos2⌋).toNat + 1 < s.length
    · rw [if_pos hb1, if_pos hb2]
      have hd2 : s.getD (⌊pos2⌋).toNat 0 ≤ s.getD ((⌊pos2⌋).toNat + 1) 0 :=
        sorted_getD_le s hp (by omega) hb2
      rcases eq_or_lt_of_le hle with heq | hlt2
      · rw [← heq]
        have hdd : (0 : ℚ) ≤ s.getD ((⌊pos1⌋).toNat + 1) 0 - s.getD (⌊pos1⌋).toNat 0 := by
          linarith
        have := mul_le_mul_of_nonneg_right
          (sub_le_sub_right h12 (((⌊pos1⌋).toNat : ℕ) : ℚ)) hdd
        linarith
      · have hfl2 : 0 ≤ ⌊pos2⌋ := by omega
        have hf2 : 0 ≤ pos2 - (((⌊pos2⌋).toNat : ℕ) : ℚ) :=
          frac_nonneg_of_floor_nonneg pos2 hfl2
        have hstep2 : s.getD ((⌊pos1⌋).toNat + 1) 0 ≤ s.getD (⌊pos2⌋).toNat 0 :=
          sorted_getD_le s hp (by omega) (by omega)
        have hdd2 : (0 : ℚ) ≤ s.getD ((⌊pos2⌋).toNat + 1) 0 - s.getD (⌊pos2⌋).toNat 0 := by
          linarith
        have hstep3 := mul_nonneg hf2 hdd2
        linarith
    · rw [if_pos hb1, if_neg hb2]
      have hstep2 : s.getD ((⌊pos1⌋).toNat + 1) 0 ≤ s.getD (s.length - 1) 0 :=
        sorted_getD_le s hp (by omega) (by omega)
      linarith
  · have hb2 : ¬ ((⌊pos2⌋).toNat + 1 < s.length) := by omega
    rw [if_neg hb1, if_neg hb2]

theorem mergeSort_sorted (data : List ℚ) :
    List.Pairwise (· ≤ ·) (data.mergeSort (fun a b => decide (a ≤ b))) := by
  have h := @List.sorted_mergeSort ℚ (fun a b : ℚ => decide (a ≤ b))
    (fun a b c hab hbc =>
      decide_eq_true (le_trans (of_decide_eq_true hab) (of_decide_eq_true hbc)))
    (fun a b => by simpa using le_total a b)
    data
  exact h.imp (fun hab => of_decide_eq_true hab)

theorem np_percentile_scalar_mono (data : List ℚ) (hd : data ≠ []) {q1 q2 : ℚ}
    (h : q1 ≤ q2) : np_percentile_scalar data q1 ≤ np_percentile_scalar data q2 := by
  unfold np_percentile_scalar
  apply np_percentile_interp_mono _ (mergeSort_sorted data)
  have hlen : (1 : ℚ) ≤ (data.length : ℚ) := by
    exact_mod_cast List.length_pos.mpr hd
  have hnn : (0 : ℚ) ≤ ((data.length : ℚ) - 1) / 100 :=
    div_nonneg (by linarith) (by norm_num)
  rw [mul_div_assoc, mul_div_assoc]
  exact mul_le_mul_of_nonneg_right h hnn

/-- C5 (counterexample): the mode string `quantile` named by the claim
is rejected by the builder (the accepted spelling is `ntile`). -/
theorem quantile_mode_rejected_cex :
    continuous_partition_data [(1 : ℚ), 2] "quantile" 10 =
      .error (.valueError "Invalid parameter for bins argument") := rfl

/-- C5 (amended): on a nonempty sample the histogram partition builder
accepts exactly the modes `uniform`, `ntile` and `auto` — each returns
a partition without error — and every other mode string fails with
`ValueError "Invalid parameter for bins argument"`. -/
theorem continuous_modes_exactly (data : List ℚ) (mode : String) (n : ℕ)
    (hd : data ≠ []) :
    ((mode = "uniform" ∨ mode = "ntile" ∨ mode = "auto") →
        ∃ p, continuous_partition_data data mode n = .ok p)
  ∧ ((mode ≠ "uniform" ∧ mode ≠ "ntile" ∧ mode ≠ "auto") →
        continuous_partition_data data mode n =
          .error (.valueError "Invalid parameter for bins argument")) := by
  constructor
  · rintro (rfl | rfl | rfl)
    · have hchle := linspace_chain_le (np_min data) (np_max data) (n + 1)
        (np_min_le_np_max hd)
      have hall : ∀ x ∈ np_diff (linspace (np_min data) (np_max data) (n + 1)),
          (0 : ℚ) ≤ x := by
        simpa using np_diff_all_nonneg _ hchle
      have hres : continuous_partition_data data "uniform" n =
          .ok { bins := linspace (np_min data) (np_max data) (n + 1),
                weights := (hist_rec data (linspace (np_min data) (np_max data) (n + 1))).map
                  (fun c : ℕ => (c : ℚ) / (data.length : ℚ)) } := by
        simp [continuous_partition_data, np_histogram, List.isEmpty_iff, hd,
          except_bind_ok]
        rw [if_pos hall]
        rfl
      exact ⟨_, hres⟩
    · have hch : List.Chain' (· ≤ ·)
          ((linspace 0 100 (n + 1)).map (np_percentile_scalar data)) := by
        rw [List.chain'_map]
        exact (linspace_chain_le 0 100 (n + 1) (by norm_num)).imp
          (fun a b hab => np_percentile_scalar_mono data hd hab)
      have hall : ∀ x ∈ np_diff ((linspace 0 100 (n + 1)).map (np_percentile_scalar data)),
          (0 : ℚ) ≤ x := by
        simpa using np_diff_all_nonneg _ hch
      have hres : continuous_partition_data data "ntile" n =
          .ok { bins := (linspace 0 100 (n + 1)).map (np_percentile_scalar data),
                weights := (hist_rec data
                    ((linspace 0 100 (n + 1)).map (np_percentile_scalar data))).map
                  (fun c : ℕ => (c : ℚ) / (data.length : ℚ)) } := by
        simp [continuous_partition_data, np_histogram, List.isEmpty_iff, hd,
          except_bind_ok]
        rw [if_pos hall]
        rfl
      exact ⟨_, hres⟩
    · have hchle := linspace_chain_le (np_min data) (np_max data)
        (auto_n_bins data.length + 1) (np_min_le_np_max hd)
      have hemp : data.isEmpty = false := by
        rw [List.isEmpty_eq_false]
        exact hd
      have hall : ∀ x ∈ np_diff (auto_bin_edges data), (0 : ℚ) ≤ x := by
        rw [auto_bin_edges, hemp]
        simpa using np_diff_all_nonneg _ hchle
      have hres : continuous_partition_data data "auto" n =
          .ok { bins := auto_bin_edges data,
                weights := (hist_rec data (auto_bin_edges data)).map
                  (fun c : ℕ => (c : ℚ) / (data.length : ℚ)) } := by
        simp [continuous_partition_data, np_histogram, except_bind_ok]
        rw [if_pos hall]
        rfl
      exact ⟨_, hres⟩
  · rintro ⟨h1, h2, h3⟩
    simp [continuous_partition_data, h1, h2, h3, except_bind_error]

/-- Witness for the amended C5 at mode `ntile` on the sample `[1, 2]`. -/
theorem continuous_modes_exactly_witness :
    ((("ntile" : String) = "uniform" ∨ ("ntile" : String) = "ntile" ∨
        ("ntile" : String) = "auto") →
        ∃ p, continuous_partition_data [(1 : ℚ), 2] "ntile" 2 = .ok p)
  ∧ ((("ntile" : String) ≠ "uniform" ∧ ("ntile" : String) ≠ "ntile" ∧
        ("ntile" : String) ≠ "auto") →
        continuous_partition_data [(1 : ℚ), 2] "ntile" 2 =
          .error (.valueError "Invalid parameter for bins argument")) :=
  continuous_modes_exactly [(1 : ℚ), 2] "ntile" 2 (by simp)

/-! ## C9 — serialization succeeds exactly on supported values -/

mutual

theorem serialization_aux (o : PyObj) :
    (supported o = true →
      ∃ r, recursively_convert_to_json_serializable o = .ok r)
  ∧ (supported o = false →
      ∃ rep ty, (rep, ty) ∈ others o ∧
        recursively_convert_to_json_serializable o =
          .error (.typeError (serialization_error_msg rep ty))) := by
  cases o with
  | pstr s =>
      exact ⟨fun _ => ⟨.pstr s, by simp [recursively_convert_to_json_serializable]⟩,
        fun h => by simp [supported] at h⟩
  | pint n =>
      exact ⟨fun _ => ⟨.pint n, by simp [recursively_convert_to_json_serializable]⟩,
        fun h => by simp [supported] at h⟩
  | pfloat q =>
      exact ⟨fun _ => ⟨.pfloat q, by simp [recursively_convert_to_json_serializable]⟩,
        fun h => by simp [supported] at h⟩
  | pbool b =>
      exact ⟨fun _ => ⟨.pbool b, by simp [recursively_convert_to_json_serializable]⟩,
        fun h => by simp [supported] at h⟩
  | pnone =>
      exact ⟨fun _ => ⟨.pnone, by simp [recursively_convert_to_json_serializable]⟩,
        fun h => by simp [supported] at h⟩
  | npInt64 n =>
      exact ⟨fun _ => ⟨.pint n, by simp [recursively_convert_to_json_serializable]⟩,
        fun h => by simp [supported] at h⟩
  | npFloat64 q =>
      exact ⟨fun _ => ⟨.pfloat (np_round15 q),
          by simp [recursively_convert_to_json_serializable]⟩,
        fun h => by simp [supported] at h⟩
  | pdatetime s =>
      exact ⟨fun _ => ⟨.pstr s, by simp [recursively_convert_to_json_serializable]⟩,
        fun h => by simp [supported] at h⟩
  | other rep ty =>
      refine ⟨fun h => by simp [supported] at h, fun _ => ⟨rep, ty, ?_, ?_⟩⟩
      · simp [others]
      · simp [recursively_convert_to_json_serializable]
  | pdict kvs =>
      have hl := serialization_dict_aux kvs
      constructor
      · intro h
        have hx : supported_dict kvs = true := by simpa [supported] using h
        obtain ⟨rs, hrs⟩ := hl.1 hx
        exact ⟨.pdict rs,
          by simp [recursively_convert_to_json_serializable, hrs, except_bind_ok]⟩
      · intro h
        have hx : supported_dict kvs = false := by simpa [supported] using h
        obtain ⟨rep, ty, hmem, hcv⟩ := hl.2 hx
        refine ⟨rep, ty, by simpa [others] using hmem, ?_⟩
        simp [recursively_convert_to_json_serializable, hcv, except_bind_error]
  | plist xs =>
      have hl := serialization_list_aux xs
      constructor
      · intro h
        have hx : supported_list xs = true := by simpa [supported] using h
        obtain ⟨rs, hrs⟩ := hl.1 hx
        exact ⟨.plist rs,
          by simp [recursively_convert_to_json_serializable, hrs, except_bind_ok]⟩
      · intro h
        have hx : supported_list xs = false := by simpa [supported] using h
        obtain ⟨rep, ty, hmem, hcv⟩ := hl.2 hx
        refine ⟨rep, ty, by simpa [others] using hmem, ?_⟩
        simp [recursively_convert_to_json_serializable, hcv, except_bind_error]
  | ptuple xs =>
      have hl := serialization_list_aux xs
      constructor
      · intro h
        have hx : supported_list xs = true := by simpa [supported] using h
        obtain ⟨rs, hrs⟩ := hl.1 hx
        exact ⟨.plist rs,
          by simp [recursively_convert_to_json_serializable, hrs, except_bind_ok]⟩
      · intro h
        have hx : supported_list xs = false := by simpa [supported] using h
        obtain ⟨rep, ty, hmem, hcv⟩ := hl.2 hx
        refine ⟨rep, ty, by simpa [others] using hmem, ?_⟩
        simp [recursively_convert_to_json_serializable, hcv, except_bind_error]
  | pset xs =>
      have hl := serialization_list_aux xs
      constructor
      · intro h
        have hx : supported_list xs = true := by simpa [supported] using h
        obtain ⟨rs, hrs⟩ := hl.1 hx
        exact ⟨.plist rs,
          by simp [recursively_convert_to_json_serializable, hrs, except_bind_ok]⟩
      · intro h
        have hx : supported_list xs = false := by simpa [supported] using h
        obtain ⟨rep, ty, hmem, hcv⟩ := hl.2 hx
        refine ⟨rep, ty, by simpa [others] using hmem, ?_⟩
        simp [recursively_convert_to_json_serializable, hcv, except_bind_error]
  | ndarray xs =>
      have hl := serialization_list_aux xs
      constructor
      · intro h
        have hx : supported_list xs = true := by simpa [supported] using h
        obtain ⟨rs, hrs⟩ := hl.1 hx
        exact ⟨.plist rs,
          by simp [recursively_convert_to_json_serializable, hrs, except_bind_ok]⟩
      · intro h
        have hx : supported_list xs = false := by simpa [supported] using h
        obtain ⟨rep, ty, hmem, hcv⟩ := hl.2 hx
        refine ⟨rep, ty, by simpa [others] using hmem, ?_⟩
        simp [recursively_convert_to_json_serializable, hcv, except_bind_error]

theorem serialization_list_aux (xs : List PyObj) :
    (supported_list xs = true → ∃ rs, convert_list xs = .ok rs)
  ∧ (supported_list xs = false →
      ∃ rep ty, (rep, ty) ∈ others_list xs ∧
        convert_list xs = .error (.typeError (serialization_error_msg rep ty))) := by
  cases xs with
  | nil =>
      refine ⟨fun _ => ⟨[], by simp [convert_list]⟩, fun h => ?_⟩
      simp [supported_list] at h
  | cons x xs' =>
      have ho := serialization_aux x
      have ht := serialization_list_aux xs'
      constructor
      · intro h
        simp only [supported_list, Bool.and_eq_true] at h
        obtain ⟨h1, h2⟩ := h
        obtain ⟨r, hr⟩ := ho.1 h1
        obtain ⟨rs, hrs⟩ := ht.1 h2
        exact ⟨r :: rs, by simp [convert_list, hr, hrs, except_bind_ok]⟩
      · intro h
        simp only [supported_list, Bool.and_eq_false_iff] at h
        cases hx : supported x with
        | false =>
            obtain ⟨rep, ty, hmem, hcv⟩ := ho.2 hx
            refine ⟨rep, ty, ?_, ?_⟩
            · simp only [others_list]
              exact List.mem_append_left _ hmem
            · simp [convert_list, hcv, except_bind_error]
        | true =>
            have h2 : supported_list xs' = false := by
              rcases h with h1 | h2
              · rw [hx] at h1; cases h1
              · exact h2
            obtain ⟨r, hr⟩ := ho.1 hx
            obtain ⟨rep, ty, hmem, hcv⟩ := ht.2 h2
            refine ⟨rep, ty, ?_, ?_⟩
            · simp only [others_list]
              exact List.mem_append_right _ hmem
            · simp [convert_list, hr, hcv, except_bind_ok, except_bind_error]

theorem serialization_dict_aux (kvs : List (String × PyObj)) :
    (supported_dict kvs = true → ∃ rs, convert_dict_entries kvs = .ok rs)
  ∧ (supported_dict kvs = false →
      ∃ rep ty, (rep, ty) ∈ others_dict kvs ∧
        convert_dict_entries kvs =
          .error (.typeError (serialization_error_msg rep ty))) := by
  cases kvs with
  | nil =>
      refine ⟨fun _ => ⟨[], by simp [convert_dict_entries]⟩, fun h => ?_⟩
      simp [supported_dict] at h
  | cons kv kvs' =>
      obtain ⟨k, v⟩ := kv
      have ho := serialization_aux v
      have ht := serialization_dict_aux kvs'
      constructor
      · intro h
        simp only [supported_dict, Bool.and_eq_true] at h
        obtain ⟨h1, h2⟩ := h
        obtain ⟨r, hr⟩ := ho.1 h1
        obtain ⟨rs, hrs⟩ := ht.1 h2
        exact ⟨(k, r) :: rs, by simp [convert_dict_entries, hr, hrs, except_bind_ok]⟩
      · intro h
        simp only [supported_dict, Bool.and_eq_false_iff] at h
        cases hx : supported v with
        | false =>
            obtain ⟨rep, ty, hmem, hcv⟩ := ho.2 hx
            refine ⟨rep, ty, ?_, ?_⟩
            · simp only [others_dict]
              exact List.mem_append_left _ hmem
            · simp [convert_dict_entries, hcv, except_bind_error]
        | true =>
            have h2 : supported_dict kvs' = false := by
              rcases h with h1 | h2
              · rw [hx] at h1; cases h1
              · exact h2
            obtain ⟨r, hr⟩ := ho.1 hx
            obtain ⟨rep, ty, hmem, hcv⟩ := ht.2 h2
            refine ⟨rep, ty, ?_, ?_⟩
            · simp only [others_dict]
              exact List.mem_append_right _ hmem
            · simp [convert_dict_entries, hr, hcv, except_bind_ok, except_bind_error]

end

/-- C9: serialization of a value succeeds (recursively) exactly when
every node is of a handled kind — primitive, null, sequence, mapping,
numpy-style scalar or array, or date/time — and on any value containing
an unhandled node it fails with the `TypeError` (the spec's
`SerializationError`) whose message names the offending value's
rendering and its type name. -/
theorem serialization_supported_iff (o : PyObj) :
    (supported o = true →
      ∃ r, recursively_convert_to_json_serializable o = .ok r)
  ∧ (supported o = false →
      ∃ rep ty, (rep, ty) ∈ others o ∧
        recursively_convert_to_json_serializable o =
          .error (.typeError (rep ++ " is of type " ++ ty ++ " which cannot be serialized."))) :=
  serialization_aux o

/-- Witness for C9: a dict holding one unserializable object fails with
the message naming that object and its type. -/
theorem serialization_supported_iff_witness :
    (supported (PyObj.pdict [("a", PyObj.other "<object>" "object")]) = false) ∧
    (∃ rep ty,
      (rep, ty) ∈ others (PyObj.pdict [("a", PyObj.other "<object>" "object")]) ∧
      recursively_convert_to_json_serializable
          (PyObj.pdict [("a", PyObj.other "<object>" "object")]) =
        .error (.typeError (rep ++ " is of type " ++ ty ++ " which cannot be serialized."))) := by
  have hs : supported (PyObj.pdict [("a", PyObj.other "<object>" "object")]) = false := by
    simp [supported, supported_dict]
  exact ⟨hs, (serialization_supported_iff _).2 hs⟩

end GE
